import Mathlib

/-!
Shallow embedding of `mailing_lists.go` from Dirbaio/mailgun-go.

The file models the data types (`List` — here `MailingList` to avoid the
clash with Lean's `List` —, `Subscriber`), the JSON marshalling of the
`Vars` map, the payload each operation builds, and the request/response
round trip of each operation, with the external collaborators
(`simplehttp` transport and decoder) abstracted as explicit inputs.
-/

namespace Mailgun

/-- Errors from collaborators and from marshalling, kept as opaque strings. -/
abbrev Err := String

/-- A JSON value, the representable fragment handled by the `encoding/json`
collaborator.  Numbers are modelled as integers. -/
inductive Json where
  | null : Json
  | bool (b : Bool) : Json
  | num (n : Int) : Json
  | str (s : String) : Json
  | arr (elems : List Json) : Json
  | obj (fields : List (String × Json)) : Json
deriving Repr

/-- A Go `interface{}` value stored in a `Subscriber`'s `Vars` map: either a
JSON-representable value, or a value `encoding/json` cannot serialize
(function, channel, ...), identified by its Go type tag. -/
inductive GoValue where
  | json (j : Json) : GoValue
  | unsupported (tag : String) : GoValue
deriving Repr

/-- The opening brace character. -/
def lbrace : Char := Char.ofNat 123

/-- The closing brace character. -/
def rbrace : Char := Char.ofNat 125

/-- Lowercase hexadecimal digit character for a value below 16. -/
def hexDigit (d : Nat) : Char :=
  if d < 10 then Char.ofNat (48 + d) else Char.ofNat (87 + d)

/-- Four lowercase hex digits of a code point below 0x10000. -/
def toHex4 (n : Nat) : List Char :=
  [hexDigit (n / 4096 % 16), hexDigit (n / 256 % 16), hexDigit (n / 16 % 16), hexDigit (n % 16)]

/-- How Go's `encoding/json` escapes one character inside a string literal:
quote and backslash get a backslash escape, newline/carriage-return/tab get
their short escapes, the other control characters and the HTML-sensitive
characters get a `\uXXXX` escape, everything else is emitted verbatim. -/
def escapeChar (c : Char) : List Char :=
  if c = '"' then ['\\', '"']
  else if c = '\\' then ['\\', '\\']
  else if c = '\n' then ['\\', 'n']
  else if c = '\r' then ['\\', 'r']
  else if c = '\t' then ['\\', 't']
  else if c.toNat < 32 ∨ c = '<' ∨ c = '>' ∨ c = '&' ∨ c.toNat = 8232 ∨ c.toNat = 8233 then
    '\\' :: 'u' :: toHex4 c.toNat
  else [c]

/-- Escape every character of a string body. -/
def escapeList : List Char → List Char
  | [] => []
  | c :: cs => escapeChar c ++ escapeList cs

/-- Decimal digit character. -/
def digitChar (d : Nat) : Char := Char.ofNat (48 + d)

/-- Decimal digits of a natural number, most significant first. -/
def natChars (n : Nat) : List Char :=
  if n = 0 then ['0'] else ((Nat.digits 10 n).reverse).map digitChar

/-- Decimal rendering of an integer, as Go's `strconv`/`encoding/json` emit it. -/
def intChars : Int → List Char
  | Int.ofNat n => natChars n
  | Int.negSucc n => '-' :: natChars (n + 1)

mutual

/-- Compact rendering of a JSON value, as Go's `json.Marshal` emits it. -/
def renderChars : Json → List Char
  | .null => "null".data
  | .bool true => "true".data
  | .bool false => "false".data
  | .num n => intChars n
  | .str s => '"' :: (escapeList s.data ++ ['"'])
  | .arr xs => '[' :: (renderElems xs ++ [']'])
  | .obj fs => lbrace :: (renderFields fs ++ [rbrace])

/-- Comma-separated rendering of array elements. -/
def renderElems : List Json → List Char
  | [] => []
  | [x] => renderChars x
  | x :: y :: xs => renderChars x ++ ',' :: renderElems (y :: xs)

/-- Comma-separated rendering of object fields. -/
def renderFields : List (String × Json) → List Char
  | [] => []
  | [kv] => '"' :: (escapeList kv.1.data ++ ['"', ':']) ++ renderChars kv.2
  | kv :: kv2 :: fs =>
      ('"' :: (escapeList kv.1.data ++ ['"', ':']) ++ renderChars kv.2) ++ ',' :: renderFields (kv2 :: fs)

end

/-- Marshalling of one Go value: JSON-representable values succeed, the
rest fail with Go's unsupported-type error. -/
def marshalGoValue : GoValue → Except Err Json
  | .json j => .ok j
  | .unsupported tag => .error ("json: unsupported type: " ++ tag)

/-- Insert a key/value pair into a key-sorted association list. -/
def insertByKey (x : String × GoValue) : List (String × GoValue) → List (String × GoValue)
  | [] => [x]
  | y :: ys => if x.1 ≤ y.1 then x :: y :: ys else y :: insertByKey x ys

/-- Sort an association list by key, as Go's `json.Marshal` sorts map keys. -/
def sortByKey : List (String × GoValue) → List (String × GoValue)
  | [] => []
  | x :: xs => insertByKey x (sortByKey xs)

/-- Marshal each value of a key-sorted field list, failing on the first
unsupported value. -/
def marshalFields : List (String × GoValue) → Except Err (List (String × Json))
  | [] => .ok []
  | (k, v) :: kvs => do
      let j ← marshalGoValue v
      let rest ← marshalFields kvs
      .ok ((k, j) :: rest)

/-- A `Subscriber`'s `Vars` map: `none` is Go's nil map. -/
abbrev Vars := Option (List (String × GoValue))

/-- `json.Marshal` applied to the `Vars` map: a nil map renders as `null`,
otherwise the keys are sorted and the object is rendered compactly; an
unsupported value makes the whole marshalling fail. -/
def marshalVars : Vars → Except Err String
  | none => .ok "null"
  | some kvs => do
      let fields ← marshalFields (sortByKey kvs)
      .ok (String.mk (renderChars (.obj fields)))

/-! ## The transport collaborator and the request model -/

/-- A payload built by successive `AddValue` calls: the ordered list of
form/query fields. -/
abbrev Payload := List (String × String)

/-- An HTTP request as handed to the `simplehttp` collaborator: method,
target URL, basic-auth credentials, and the payload fields. -/
structure SentRequest where
  method : String
  url : String
  authUser : String
  authPassword : String
  payload : Payload
deriving Repr, DecidableEq

/-- The environment of one call, abstracting the `simplehttp` collaborator.
`requestErr` is the error value `MakeRequest`/`MakeGetRequest`/... returns:
per the spec's error taxonomy it covers both a transport failure and a
non-2xx HTTP status, surfaced as-is.  `parse` is what `ParseFromJSON` on the
returned response yields for the envelope type `α` of the call. -/
structure CallWorld (α : Type) where
  requestErr : Option Err
  parse : Except Err α

/-- Modelled from the spec: `ParseFromJSON` of the external `simplehttp`
collaborator decodes the body into the target value; it either fully
succeeds, or fails leaving the target at its zero value (spec: "response
decoding failure when the body does not match the expected envelope shape",
"No partial-success semantics"). -/
def parseFromJSON (zero : α) : Except Err α → α × Option Err
  | .ok v => (v, none)
  | .error e => (zero, some e)

/-! ## Constants and helpers that live in `mailgun.go`, outside `src/` -/

/-- Modelled from the spec: the fixed base URL of the remote service
(`mailgun.go` is not part of the sources under review). -/
def apiBase : String := "https://api.mailgun.net/v2"

/-- Modelled from the spec: the `/lists` endpoint name used by every
operation of the mailing-list client. -/
def listsEndpoint : String := "lists"

/-- Modelled from the spec: the fixed basic-auth username; the API key is
passed as the basic-auth password. -/
def basicAuthUser : String := "api"

/-- Modelled from the spec: the documented "unset" sentinel for `limit`;
a call passing this value omits the parameter. -/
def DefaultLimit : Int := -1

/-- Modelled from the spec: the documented "unset" sentinel for `skip`. -/
def DefaultSkip : Int := -1

/-- Modelled from the spec: `generatePublicApiUrl` joins the fixed base URL
with an endpoint name. -/
def generatePublicApiUrl (endpoint : String) : String :=
  apiBase ++ "/" ++ endpoint

/-- Modelled from the spec: `generateSubscriberApiUrl` builds the
`/lists/{address}/members` URL of a list's member collection. -/
def generateSubscriberApiUrl (endpoint addr : String) : String :=
  apiBase ++ "/" ++ endpoint ++ "/" ++ addr ++ "/members"

/-- Modelled from the spec: `yesNo` encodes a boolean as exactly `"yes"` or
`"no"` on the wire. -/
def yesNo (b : Bool) : String := if b then "yes" else "no"

/-! ## Data model -/

/-- The `List` structure of the source (named `MailingList` here because
`List` is taken by Lean): a mailing list record. -/
structure MailingList where
  address : String
  name : String
  description : String
  accessLevel : String
  createdAt : String
  membersCount : Int
deriving Repr, DecidableEq

/-- The Go zero value of the `List` structure. -/
def MailingList.zero : MailingList := ⟨"", "", "", "", "", 0⟩

/-- The `Subscriber` structure of the source: a member of a mailing list.
`subscribed` is the tri-state pointer-to-bool, `vars` the nilable map. -/
structure Subscriber where
  address : String
  name : String
  subscribed : Option Bool
  vars : Vars
deriving Repr

/-- The Go zero value of the `Subscriber` structure. -/
def Subscriber.zero : Subscriber := ⟨"", "", none, none⟩

/-- The client: it holds only the immutable API credential (the rest of
`mailgunImpl` lives in `mailgun.go`; per the spec the client state is
exactly the immutable credential/configuration). -/
structure mailgunImpl where
  apiKey : String
deriving Repr, DecidableEq

/-- The outcome of one operation: the client after the call, the HTTP
request performed (if any was issued), the returned value, and the returned
error. -/
structure OpResult (α : Type) where
  client : mailgunImpl
  sent : Option SentRequest
  value : α
  err : Option Err

/-- The anonymous envelope of `GetLists`: `{items, total_count}`. -/
structure ListsEnvelope where
  items : List MailingList
  totalCount : Int
deriving Repr

/-- The anonymous envelope of `GetListByAddress`: `{list}` (embedded). -/
structure ListEnvelope where
  list : MailingList
deriving Repr

/-- The anonymous envelope of `GetSubscribers`: `{total_count, items}`. -/
structure MembersEnvelope where
  totalCount : Int
  items : List Subscriber
deriving Repr

/-- The anonymous envelope of `GetSubscriberByAddress`/`UpdateSubscriber`:
`{member}`. -/
structure MemberEnvelope where
  member : Subscriber
deriving Repr

/-! ## Operations, translated from `mailing_lists.go` -/

/-- `GetLists(limit, skip, filter)`: GET on `/lists`, omitting `limit`,
`skip` and `address` at their sentinel/empty values; returns `(-1, nil, err)`
on a request error, otherwise the parsed envelope with the parse error. -/
def GetLists (mg : mailgunImpl) (limit skip : Int) (filter : String)
    (w : CallWorld ListsEnvelope) : OpResult (Int × List MailingList) :=
  let p : Payload :=
    (if limit ≠ DefaultLimit then [("limit", toString limit)] else []) ++
    (if skip ≠ DefaultSkip then [("skip", toString skip)] else []) ++
    (if filter ≠ "" then [("address", filter)] else [])
  let req : SentRequest :=
    ⟨"GET", generatePublicApiUrl listsEndpoint, basicAuthUser, mg.apiKey, p⟩
  match w.requestErr with
  | some e => ⟨mg, some req, (-1, []), some e⟩
  | none =>
      let pe := parseFromJSON ⟨[], 0⟩ w.parse
      ⟨mg, some req, (pe.1.totalCount, pe.1.items), pe.2⟩

/-- `CreateList(prototype)`: POST on `/lists` with exactly the non-empty
prototype fields, in source order; the result is decoded directly from the
response body (no envelope). -/
def CreateList (mg : mailgunImpl) (prototype : MailingList)
    (w : CallWorld MailingList) : OpResult MailingList :=
  let p : Payload :=
    (if prototype.address ≠ "" then [("address", prototype.address)] else []) ++
    (if prototype.name ≠ "" then [("name", prototype.name)] else []) ++
    (if prototype.description ≠ "" then [("description", prototype.description)] else []) ++
    (if prototype.accessLevel ≠ "" then [("access_level", prototype.accessLevel)] else [])
  let req : SentRequest :=
    ⟨"POST", generatePublicApiUrl listsEndpoint, basicAuthUser, mg.apiKey, p⟩
  match w.requestErr with
  | some e => ⟨mg, some req, MailingList.zero, some e⟩
  | none =>
      let pe := parseFromJSON MailingList.zero w.parse
      ⟨mg, some req, pe.1, pe.2⟩

/-- `DeleteList(addr)`: DELETE on `/lists/{addr}`; only the error of the
request is returned (the response body is ignored). -/
def DeleteList (mg : mailgunImpl) (addr : String)
    (w : CallWorld Unit) : OpResult Unit :=
  let req : SentRequest :=
    ⟨"DELETE", generatePublicApiUrl listsEndpoint ++ "/" ++ addr, basicAuthUser, mg.apiKey, []⟩
  ⟨mg, some req, (), w.requestErr⟩

/-- `GetListByAddress(addr)`: GET on `/lists/{addr}`.  Note the source: the
error of `MakeGetRequest` is captured and then overwritten by the result of
`ParseFromJSON` without ever being checked, so the request error never
reaches the caller. -/
def GetListByAddress (mg : mailgunImpl) (addr : String)
    (w : CallWorld ListEnvelope) : OpResult MailingList :=
  let req : SentRequest :=
    ⟨"GET", generatePublicApiUrl listsEndpoint ++ "/" ++ addr, basicAuthUser, mg.apiKey, []⟩
  let pe := parseFromJSON ⟨MailingList.zero⟩ w.parse
  ⟨mg, some req, pe.1.list, pe.2⟩

/-- `UpdateList(addr, prototype)`: PUT on `/lists/{addr}` with exactly the
non-empty prototype fields. -/
def UpdateList (mg : mailgunImpl) (addr : String) (prototype : MailingList)
    (w : CallWorld MailingList) : OpResult MailingList :=
  let p : Payload :=
    (if prototype.address ≠ "" then [("address", prototype.address)] else []) ++
    (if prototype.name ≠ "" then [("name", prototype.name)] else []) ++
    (if prototype.description ≠ "" then [("description", prototype.description)] else []) ++
    (if prototype.accessLevel ≠ "" then [("access_level", prototype.accessLevel)] else [])
  let req : SentRequest :=
    ⟨"PUT", generatePublicApiUrl listsEndpoint ++ "/" ++ addr, basicAuthUser, mg.apiKey, p⟩
  match w.requestErr with
  | some e => ⟨mg, some req, MailingList.zero, some e⟩
  | none =>
      let pe := parseFromJSON MailingList.zero w.parse
      ⟨mg, some req, pe.1, pe.2⟩

/-- `GetSubscribers(limit, skip, s, addr)`: GET on `/lists/{addr}/members`;
`limit`/`skip` are omitted at their sentinels and the tri-state `s` adds
`subscribed=yes|no` only when non-nil. -/
def GetSubscribers (mg : mailgunImpl) (limit skip : Int) (s : Option Bool) (addr : String)
    (w : CallWorld MembersEnvelope) : OpResult (Int × List Subscriber) :=
  let p : Payload :=
    (if limit ≠ DefaultLimit then [("limit", toString limit)] else []) ++
    (if skip ≠ DefaultSkip then [("skip", toString skip)] else []) ++
    (match s with
     | some b => [("subscribed", yesNo b)]
     | none => [])
  let req : SentRequest :=
    ⟨"GET", generateSubscriberApiUrl listsEndpoint addr, basicAuthUser, mg.apiKey, p⟩
  match w.requestErr with
  | some e => ⟨mg, some req, (-1, []), some e⟩
  | none =>
      let pe := parseFromJSON ⟨0, []⟩ w.parse
      ⟨mg, some req, (pe.1.totalCount, pe.1.items), pe.2⟩

/-- `GetSubscriberByAddress(s, l)`: GET on `/lists/{l}/members/{s}`; the
result is decoded from the `{member}` envelope. -/
def GetSubscriberByAddress (mg : mailgunImpl) (s l : String)
    (w : CallWorld MemberEnvelope) : OpResult Subscriber :=
  let req : SentRequest :=
    ⟨"GET", generateSubscriberApiUrl listsEndpoint l ++ "/" ++ s, basicAuthUser, mg.apiKey, []⟩
  match w.requestErr with
  | some e => ⟨mg, some req, Subscriber.zero, some e⟩
  | none =>
      let pe := parseFromJSON ⟨Subscriber.zero⟩ w.parse
      ⟨mg, some req, pe.1.member, pe.2⟩

/-- `CreateSubscriber(merge, addr, prototype)`: marshals `Vars` first and
returns the marshalling error without any request when it fails; otherwise
POSTs on `/lists/{addr}/members` with `upsert`, `address`, `name` and `vars`
always present and `subscribed` only when non-nil.  The response body is
ignored; only the request error is returned. -/
def CreateSubscriber (mg : mailgunImpl) (merge : Bool) (addr : String) (prototype : Subscriber)
    (w : CallWorld Unit) : OpResult Unit :=
  match marshalVars prototype.vars with
  | .error e => ⟨mg, none, (), some e⟩
  | .ok vs =>
      let p : Payload :=
        [("upsert", yesNo merge), ("address", prototype.address),
         ("name", prototype.name), ("vars", vs)] ++
        (match prototype.subscribed with
         | some b => [("subscribed", yesNo b)]
         | none => [])
      let req : SentRequest :=
        ⟨"POST", generateSubscriberApiUrl listsEndpoint addr, basicAuthUser, mg.apiKey, p⟩
      ⟨mg, some req, (), w.requestErr⟩

/-- `UpdateSubscriber(s, l, prototype)`: PUT on `/lists/{l}/members/{s}`;
`address`/`name` are sent only when non-empty, `vars` is marshalled and
sent only when the map is non-nil (a marshalling failure aborts the call
without a request), `subscribed` only when non-nil; the result is decoded
from the `{member}` envelope. -/
def UpdateSubscriber (mg : mailgunImpl) (s l : String) (prototype : Subscriber)
    (w : CallWorld MemberEnvelope) : OpResult Subscriber :=
  let base : Payload :=
    (if prototype.address ≠ "" then [("address", prototype.address)] else []) ++
    (if prototype.name ≠ "" then [("name", prototype.name)] else [])
  let tail : Payload :=
    match prototype.subscribed with
    | some b => [("subscribed", yesNo b)]
    | none => []
  let run : Payload → OpResult Subscriber := fun p =>
    let req : SentRequest :=
      ⟨"PUT", generateSubscriberApiUrl listsEndpoint l ++ "/" ++ s, basicAuthUser, mg.apiKey, p⟩
    match w.requestErr with
    | some e => ⟨mg, some req, Subscriber.zero, some e⟩
    | none =>
        let pe := parseFromJSON ⟨Subscriber.zero⟩ w.parse
        ⟨mg, some req, pe.1.member, pe.2⟩
  match prototype.vars with
  | some kvs =>
      match marshalVars (some kvs) with
      | .error e => ⟨mg, none, Subscriber.zero, some e⟩
      | .ok vs => run (base ++ [("vars", vs)] ++ tail)
  | none => run (base ++ tail)

/-- The payload of the request an operation issued (empty when no request
was performed). -/
def sentPayload (o : OpResult α) : Payload :=
  match o.sent with
  | some r => r.payload
  | none => []

/-- The values a payload carries under one field name, in payload order. -/
def fieldValues (p : Payload) (key : String) : List String :=
  (p.filter (fun kv => kv.1 == key)).map (fun kv => kv.2)

/-! ## The decoding direction of the JSON collaborator

`json.Unmarshal` into `map[string]interface{}`, modelled on the compact
output `json.Marshal` produces.  Used to state the serialize/deserialize
round trip of the `Vars` map. -/

/-- Value of a lowercase hexadecimal digit character. -/
def hexVal (c : Char) : Option Nat :=
  if c.isDigit then some (c.toNat - 48)
  else if 'a' ≤ c ∧ c ≤ 'f' then some (c.toNat - 87)
  else none

/-- Decode a single-character escape after a backslash. -/
def unescapeChar (e : Char) : Option Char :=
  if e = 'n' then some '\n'
  else if e = 't' then some '\t'
  else if e = 'r' then some '\r'
  else if e = '"' then some '"'
  else if e = '\\' then some '\\'
  else if e = '/' then some '/'
  else if e = 'b' then some (Char.ofNat 8)
  else if e = 'f' then some (Char.ofNat 12)
  else none

/-- Parse the body of a JSON string literal up to and including the closing
quote, undoing the escapes; returns the decoded characters and the rest of
the input. -/
def parseStringBody : List Char → Option (List Char × List Char)
  | [] => none
  | c :: rest =>
    if c = '"' then some ([], rest)
    else if c = '\\' then
      match rest with
      | 'u' :: h1 :: h2 :: h3 :: h4 :: rest2 =>
        match hexVal h1, hexVal h2, hexVal h3, hexVal h4 with
        | some a, some b, some c2, some d =>
          match parseStringBody rest2 with
          | some (cs, r) => some (Char.ofNat (((a * 16 + b) * 16 + c2) * 16 + d) :: cs, r)
          | none => none
        | _, _, _, _ => none
      | e :: rest2 =>
        match unescapeChar e with
        | some u =>
          match parseStringBody rest2 with
          | some (cs, r) => some (u :: cs, r)
          | none => none
        | none => none
      | [] => none
    else
      match parseStringBody rest with
      | some (cs, r) => some (c :: cs, r)
      | none => none

/-- Consume a maximal run of decimal digits, accumulating their value. -/
def parseDigitsAux : List Char → Nat → Nat × List Char
  | [], acc => (acc, [])
  | c :: rest, acc =>
      if c.isDigit then parseDigitsAux rest (10 * acc + (c.toNat - 48)) else (acc, c :: rest)

/-- Parse a non-empty run of decimal digits. -/
def parseNatRun : List Char → Option (Nat × List Char)
  | [] => none
  | c :: rest => if c.isDigit then some (parseDigitsAux (c :: rest) 0) else none

mutual

/-- Fuel-indexed parser for one compact JSON value. -/
def parseVal : Nat → List Char → Option (Json × List Char)
  | 0, _ => none
  | fuel + 1, cs =>
    match cs with
    | [] => none
    | c :: rest =>
      if c = 'n' then
        match rest with
        | 'u' :: 'l' :: 'l' :: r => some (.null, r)
        | _ => none
      else if c = 't' then
        match rest with
        | 'r' :: 'u' :: 'e' :: r => some (.bool true, r)
        | _ => none
      else if c = 'f' then
        match rest with
        | 'a' :: 'l' :: 's' :: 'e' :: r => some (.bool false, r)
        | _ => none
      else if c = '"' then
        match parseStringBody rest with
        | some (cs2, r) => some (.str (String.mk cs2), r)
        | none => none
      else if c = '[' then
        match rest with
        | ']' :: r => some (.arr [], r)
        | _ =>
          match parseElems fuel rest with
          | some (xs, r) => some (.arr xs, r)
          | none => none
      else if c = lbrace then
        match rest with
        | [] => none
        | c2 :: r2 =>
          if c2 = rbrace then some (.obj [], r2)
          else
            match parseFields fuel (c2 :: r2) with
            | some (fs, r) => some (.obj fs, r)
            | none => none
      else if c = '-' then
        match parseNatRun rest with
        | some (n2, r) => some (.num (-(n2 : Int)), r)
        | none => none
      else if c.isDigit then
        match parseNatRun (c :: rest) with
        | some (n2, r) => some (.num (n2 : Int), r)
        | none => none
      else none

/-- Fuel-indexed parser for the elements of a non-empty array, starting
after the opening bracket and consuming the closing one. -/
def parseElems : Nat → List Char → Option (List Json × List Char)
  | 0, _ => none
  | fuel + 1, cs =>
    match parseVal fuel cs with
    | some (x, r) =>
      match r with
      | ']' :: r2 => some ([x], r2)
      | ',' :: r2 =>
        match parseElems fuel r2 with
        | some (xs, r3) => some (x :: xs, r3)
        | none => none
      | _ => none
    | none => none

/-- Fuel-indexed parser for the fields of a non-empty object, starting
after the opening brace and consuming the closing one. -/
def parseFields : Nat → List Char → Option (List (String × Json) × List Char)
  | 0, _ => none
  | fuel + 1, cs =>
    match cs with
    | '"' :: rest =>
      match parseStringBody rest with
      | some (k, r) =>
        match r with
        | ':' :: r2 =>
          match parseVal fuel r2 with
          | some (v, r3) =>
            match r3 with
            | c4 :: r4 =>
              if c4 = rbrace then some ([(String.mk k, v)], r4)
              else if c4 = ',' then
                match parseFields fuel r4 with
                | some (fs, r5) => some ((String.mk k, v) :: fs, r5)
                | none => none
              else none
            | [] => none
          | none => none
        | _ => none
      | none => none
    | _ => none

end

mutual

/-- Fuel needed by `parseVal` for one value. -/
def sizeJ : Json → Nat
  | .arr xs => 1 + sizeElems xs
  | .obj fs => 1 + sizeFields fs
  | _ => 1

/-- Fuel needed by `parseElems` for an element list. -/
def sizeElems : List Json → Nat
  | [] => 0
  | x :: xs => 1 + sizeJ x + sizeElems xs

/-- Fuel needed by `parseFields` for a field list. -/
def sizeFields : List (String × Json) → Nat
  | [] => 0
  | kv :: fs => 1 + sizeJ kv.2 + sizeFields fs

end

/-- `json.Unmarshal` of a `Vars` payload string: `null` yields the nil map,
an object yields the map with generic (`interface{}`) values. -/
def unmarshalVars (s : String) : Option Vars :=
  match parseVal (s.length + 1) s.data with
  | some (.null, []) => some none
  | some (.obj fs, []) => some (some (fs.map (fun kv => (kv.1, GoValue.json kv.2))))
  | _ => none

/-! ## Helper lemmas about payloads -/

theorem fieldValues_nil (key : String) : fieldValues [] key = [] := rfl

theorem fieldValues_append (p q : Payload) (key : String) :
    fieldValues (p ++ q) key = fieldValues p key ++ fieldValues q key := by
  simp [fieldValues, List.filter_append]

theorem fieldValues_cons_ne (k' v : String) (p : Payload) (key : String) (h : (k' == key) = false) :
    fieldValues ((k', v) :: p) key = fieldValues p key := by
  simp [fieldValues, List.filter_cons, h]

theorem fieldValues_cons_eq (v : String) (p : Payload) (key : String) :
    fieldValues ((key, v) :: p) key = v :: fieldValues p key := by
  simp [fieldValues, List.filter_cons]

/-! ## Claim theorems: request construction -/

/-- C3: `GetSubscribers` encodes the tri-state `subscribed` filter as: `nil`
omits the parameter, `true` sends exactly `"yes"`, `false` sends exactly
`"no"`. -/
theorem getSubscribers_subscribed_tristate (mg : mailgunImpl) (limit skip : Int)
    (s : Option Bool) (addr : String) (w : CallWorld MembersEnvelope) :
    fieldValues (sentPayload (GetSubscribers mg limit skip s addr w)) "subscribed" =
      match s with
      | none => []
      | some b => [yesNo b] := by
  rcases w with ⟨re, pr⟩
  cases re <;> cases s <;>
    simp [GetSubscribers, sentPayload, fieldValues, List.filter_append] <;>
    split_ifs <;> simp

/-- C4: `GetLists` and `GetSubscribers` omit `limit`/`skip` exactly when they
equal the sentinels `DefaultLimit`/`DefaultSkip`, and `GetLists` omits the
`address` filter exactly when it is empty. -/
theorem default_sentinels_omitted (mg : mailgunImpl) (limit skip : Int) (filter addr : String)
    (s : Option Bool) (w1 : CallWorld ListsEnvelope) (w2 : CallWorld MembersEnvelope) :
    (("limit" ∈ (sentPayload (GetLists mg limit skip filter w1)).map Prod.fst) ↔
      limit ≠ DefaultLimit) ∧
    (("skip" ∈ (sentPayload (GetLists mg limit skip filter w1)).map Prod.fst) ↔
      skip ≠ DefaultSkip) ∧
    (("address" ∈ (sentPayload (GetLists mg limit skip filter w1)).map Prod.fst) ↔
      filter ≠ "") ∧
    (("limit" ∈ (sentPayload (GetSubscribers mg limit skip s addr w2)).map Prod.fst) ↔
      limit ≠ DefaultLimit) ∧
    (("skip" ∈ (sentPayload (GetSubscribers mg limit skip s addr w2)).map Prod.fst) ↔
      skip ≠ DefaultSkip) := by
  rcases w1 with ⟨re1, pr1⟩
  rcases w2 with ⟨re2, pr2⟩
  cases re1 <;> cases re2 <;> cases s <;>
    simp [GetLists, GetSubscribers, sentPayload] <;>
    split_ifs <;> simp_all

/-- C9: no operation mutates the client: the held credential is identical
before and after every call, and an operation's outgoing request does not
depend on a prior call (illustrated by running `GetLists` on the client
returned by `DeleteList`). -/
theorem client_stateless (mg : mailgunImpl) (limit skip : Int) (filter addr s l : String)
    (sub : Option Bool) (proto : MailingList) (ps : Subscriber) (merge : Bool)
    (w1 : CallWorld ListsEnvelope) (w2 : CallWorld MailingList) (w3 : CallWorld Unit)
    (w4 : CallWorld ListEnvelope) (w5 : CallWorld MailingList) (w6 : CallWorld MembersEnvelope)
    (w7 : CallWorld MemberEnvelope) (w8 : CallWorld Unit) (w9 : CallWorld MemberEnvelope) :
    (GetLists mg limit skip filter w1).client = mg ∧
    (CreateList mg proto w2).client = mg ∧
    (DeleteList mg addr w3).client = mg ∧
    (GetListByAddress mg addr w4).client = mg ∧
    (UpdateList mg addr proto w5).client = mg ∧
    (GetSubscribers mg limit skip sub addr w6).client = mg ∧
    (GetSubscriberByAddress mg s l w7).client = mg ∧
    (CreateSubscriber mg merge addr ps w8).client = mg ∧
    (UpdateSubscriber mg s l ps w9).client = mg ∧
    (GetLists ((DeleteList mg addr w3).client) limit skip filter w1).sent =
      (GetLists mg limit skip filter w1).sent := by
  rcases w1 with ⟨re1, p1⟩
  rcases w2 with ⟨re2, p2⟩
  rcases w5 with ⟨re5, p5⟩
  rcases w6 with ⟨re6, p6⟩
  rcases w7 with ⟨re7, p7⟩
  rcases w9 with ⟨re9, p9⟩
  refine ⟨?_, ?_, rfl, rfl, ?_, ?_, ?_, ?_, ?_, rfl⟩
  · cases re1 <;> rfl
  · cases re2 <;> rfl
  · cases re5 <;> rfl
  · cases re6 <;> rfl
  · cases re7 <;> rfl
  · rcases h : marshalVars ps.vars with e | vs <;> simp [CreateSubscriber, h]
  · rcases ps with ⟨pa, pn, psub, pvars⟩
    cases pvars with
    | none => cases re9 <;> rfl
    | some kvs =>
        rcases h : marshalVars (some kvs) with e | vs <;>
          simp only [UpdateSubscriber, h] <;> cases re9 <;> rfl

/-- C10: `GetListByAddress` discards the error of the network call: its
result does not depend on the request error at all, and the error it
returns is always the outcome of JSON-parsing the response into the list
envelope. -/
theorem getListByAddress_error_from_parse_only (mg : mailgunImpl) (addr : String)
    (re re' : Option Err) (p : Except Err ListEnvelope) :
    GetListByAddress mg addr ⟨re, p⟩ = GetListByAddress mg addr ⟨re', p⟩ ∧
    (GetListByAddress mg addr ⟨re, p⟩).err = (parseFromJSON ⟨MailingList.zero⟩ p).2 :=
  ⟨rfl, rfl⟩

/-- C1: evaluation of the code at the failing input.  A call whose request
fails with a non-2xx status (`requestErr` is a 404) but whose error body
still decodes into the list envelope returns NO error and the zero-value
`List`: the request error is overwritten by the parse result, contradicting
the claim that a non-2xx response on `GetListByAddress` yields an error. -/
theorem getListByAddress_discards_request_error_eval :
    GetListByAddress ⟨"key"⟩ "list@example.com"
        ⟨some "HTTP 404 Not Found", .ok ⟨MailingList.zero⟩⟩ =
      ⟨⟨"key"⟩, some ⟨"GET", generatePublicApiUrl listsEndpoint ++ "/" ++ "list@example.com",
        basicAuthUser, "key", []⟩, MailingList.zero, none⟩ := rfl

/-- C5: `CreateList` with a prototype carrying only `address` and `name`
issues a POST to `/lists` whose form body is exactly those two fields, and
returns the `List` decoded directly from the response body. -/
theorem createList_minimal_scenario (mg : mailgunImpl) (a n : String) (l : MailingList)
    (w : CallWorld MailingList) (ha : a ≠ "") (hn : n ≠ "")
    (hre : w.requestErr = none) (hp : w.parse = .ok l) :
    CreateList mg ⟨a, n, "", "", "", 0⟩ w =
      ⟨mg, some ⟨"POST", generatePublicApiUrl listsEndpoint, basicAuthUser, mg.apiKey,
        [("address", a), ("name", n)]⟩, l, none⟩ := by
  simp [CreateList, hre, hp, parseFromJSON, ha, hn]

/-- Witness for C5 at a concrete prototype and world. -/
theorem createList_minimal_scenario_witness :
    CreateList ⟨"key"⟩ ⟨"list@x.com", "L", "", "", "", 0⟩
        ⟨none, .ok ⟨"list@x.com", "L", "", "everyone", "2013-01-01", 0⟩⟩ =
      ⟨⟨"key"⟩, some ⟨"POST", generatePublicApiUrl listsEndpoint, basicAuthUser, "key",
        [("address", "list@x.com"), ("name", "L")]⟩,
        ⟨"list@x.com", "L", "", "everyone", "2013-01-01", 0⟩, none⟩ :=
  createList_minimal_scenario ⟨"key"⟩ "list@x.com" "L"
    ⟨"list@x.com", "L", "", "everyone", "2013-01-01", 0⟩
    ⟨none, .ok ⟨"list@x.com", "L", "", "everyone", "2013-01-01", 0⟩⟩
    (by decide) (by decide) rfl rfl

/-- C6: when the `vars` map of the prototype cannot be JSON-serialized,
`CreateSubscriber` returns the marshalling error and no HTTP request is
performed. -/
theorem createSubscriber_marshal_failure_no_request (mg : mailgunImpl) (merge : Bool)
    (addr : String) (proto : Subscriber) (w : CallWorld Unit) (e : Err)
    (h : marshalVars proto.vars = .error e) :
    CreateSubscriber mg merge addr proto w = ⟨mg, none, (), some e⟩ := by
  simp [CreateSubscriber, h]

/-- Witness for C6: a `vars` map holding a Go function value. -/
theorem createSubscriber_marshal_failure_no_request_witness :
    CreateSubscriber ⟨"key"⟩ false "list@x.com"
        ⟨"joe@x.com", "Joe", none, some [("f", GoValue.unsupported "func()")]⟩ ⟨none, .ok ()⟩ =
      ⟨⟨"key"⟩, none, (), some "json: unsupported type: func()"⟩ :=
  createSubscriber_marshal_failure_no_request ⟨"key"⟩ false "list@x.com"
    ⟨"joe@x.com", "Joe", none, some [("f", GoValue.unsupported "func()")]⟩
    ⟨none, .ok ()⟩ "json: unsupported type: func()" rfl

/-- C2, counterexample: `CreateSubscriber` does NOT omit empty optional
fields.  With a prototype whose fields are all empty and whose `vars` map
is nil, the outgoing payload still carries `address`, `name`, and a `vars`
field (the string `"null"`), refuting "exactly the non-empty optional
fields appear" and "the vars map is sent only if present". -/
theorem createSubscriber_sends_empty_and_nil_fields :
    Subscriber.zero.vars = none ∧
    Subscriber.zero.address = "" ∧
    sentPayload (CreateSubscriber ⟨"key"⟩ false "list@x.com" Subscriber.zero ⟨none, .ok ()⟩) =
      [("upsert", "no"), ("address", ""), ("name", ""), ("vars", "null")] ∧
    fieldValues
      (sentPayload (CreateSubscriber ⟨"key"⟩ false "list@x.com" Subscriber.zero ⟨none, .ok ()⟩))
      "vars" = ["null"] :=
  ⟨rfl, rfl, rfl, rfl⟩

/-- C2, amended: `CreateList`, `UpdateList` and `UpdateSubscriber` send
exactly the non-empty (respectively non-nil) optional fields of the
prototype; `CreateSubscriber` sends `upsert`, `address`, `name` and the
JSON-serialized `vars` unconditionally (`vars` being `"null"` for a nil
map) and conditions only `subscribed` on presence. -/
theorem prototype_payload_characterization (mg : mailgunImpl) (addr s l : String)
    (proto : MailingList) (ps : Subscriber) (merge : Bool)
    (w2 w5 : CallWorld MailingList) (w8 : CallWorld Unit) (w9 : CallWorld MemberEnvelope)
    (vs : String) (hm : marshalVars ps.vars = .ok vs) :
    sentPayload (CreateList mg proto w2) =
      (if proto.address = "" then [] else [("address", proto.address)]) ++
      (if proto.name = "" then [] else [("name", proto.name)]) ++
      (if proto.description = "" then [] else [("description", proto.description)]) ++
      (if proto.accessLevel = "" then [] else [("access_level", proto.accessLevel)]) ∧
    sentPayload (UpdateList mg addr proto w5) =
      (if proto.address = "" then [] else [("address", proto.address)]) ++
      (if proto.name = "" then [] else [("name", proto.name)]) ++
      (if proto.description = "" then [] else [("description", proto.description)]) ++
      (if proto.accessLevel = "" then [] else [("access_level", proto.accessLevel)]) ∧
    sentPayload (CreateSubscriber mg merge addr ps w8) =
      [("upsert", yesNo merge), ("address", ps.address), ("name", ps.name), ("vars", vs)] ++
      (match ps.subscribed with
       | some b => [("subscribed", yesNo b)]
       | none => []) ∧
    sentPayload (UpdateSubscriber mg s l ps w9) =
      (if ps.address = "" then [] else [("address", ps.address)]) ++
      (if ps.name = "" then [] else [("name", ps.name)]) ++
      (match ps.vars with
       | none => []
       | some _ => [("vars", vs)]) ++
      (match ps.subscribed with
       | some b => [("subscribed", yesNo b)]
       | none => []) := by
  rcases w2 with ⟨re2, p2⟩
  rcases w5 with ⟨re5, p5⟩
  rcases w8 with ⟨re8, p8⟩
  rcases w9 with ⟨re9, p9⟩
  refine ⟨?_, ?_, ?_, ?_⟩
  · cases re2 <;> simp [CreateList, sentPayload] <;> split_ifs <;> simp_all
  · cases re5 <;> simp [UpdateList, sentPayload] <;> split_ifs <;> simp_all
  · simp only [CreateSubscriber, hm]
    cases re8 <;> cases ps.subscribed <;> simp [sentPayload]
  · rcases ps with ⟨pa, pn, psub, pvars⟩
    cases pvars with
    | none =>
        simp only at hm
        cases re9 <;> cases psub <;>
          simp [UpdateSubscriber, sentPayload] <;> split_ifs <;> simp_all
    | some kvs =>
        simp only at hm
        cases re9 <;> cases psub <;>
          simp only [UpdateSubscriber, hm, sentPayload] <;> split_ifs <;> simp_all

/-- Witness for C2's amended claim at concrete prototypes and worlds. -/
theorem prototype_payload_characterization_witness :
    sentPayload (CreateList ⟨"key"⟩ ⟨"a@x.com", "", "d", "", "", 0⟩ ⟨none, .error "boom"⟩) =
      [("address", "a@x.com"), ("description", "d")] ∧
    sentPayload (UpdateList ⟨"key"⟩ "old@x.com" ⟨"a@x.com", "", "d", "", "", 0⟩
        ⟨none, .error "boom"⟩) =
      [("address", "a@x.com"), ("description", "d")] ∧
    sentPayload (CreateSubscriber ⟨"key"⟩ true "list@x.com"
        ⟨"joe@x.com", "", some false, none⟩ ⟨none, .ok ()⟩) =
      [("upsert", "yes"), ("address", "joe@x.com"), ("name", ""), ("vars", "null"),
       ("subscribed", "no")] ∧
    sentPayload (UpdateSubscriber ⟨"key"⟩ "joe@x.com" "list@x.com"
        ⟨"joe@x.com", "", some false, none⟩ ⟨none, .ok ⟨Subscriber.zero⟩⟩) =
      [("address", "joe@x.com"), ("subscribed", "no")] := by
  have h := prototype_payload_characterization ⟨"key"⟩ "old@x.com" "joe@x.com" "list@x.com"
    ⟨"a@x.com", "", "d", "", "", 0⟩ ⟨"joe@x.com", "", some false, none⟩ true
    ⟨none, .error "boom"⟩ ⟨none, .error "boom"⟩ ⟨none, .ok ()⟩
    ⟨none, .ok ⟨Subscriber.zero⟩⟩ "null" rfl
  simpa using h

/-- C7: `UpdateSubscriber` sends `address`/`name` only when non-empty, the
JSON-serialized `vars` only when the map is non-nil, `subscribed` (as
`"yes"`/`"no"`) only when non-nil, and decodes its result from the
`{member}` envelope of the response. -/
theorem updateSubscriber_partial_update (mg : mailgunImpl) (s l : String) (proto : Subscriber)
    (w : CallWorld MemberEnvelope) (vs : String) (m : Subscriber)
    (hm : ∀ kvs, proto.vars = some kvs → marshalVars (some kvs) = .ok vs) :
    fieldValues (sentPayload (UpdateSubscriber mg s l proto w)) "address" =
      (if proto.address = "" then [] else [proto.address]) ∧
    fieldValues (sentPayload (UpdateSubscriber mg s l proto w)) "name" =
      (if proto.name = "" then [] else [proto.name]) ∧
    fieldValues (sentPayload (UpdateSubscriber mg s l proto w)) "vars" =
      (match proto.vars with
       | none => []
       | some _ => [vs]) ∧
    fieldValues (sentPayload (UpdateSubscriber mg s l proto w)) "subscribed" =
      (match proto.subscribed with
       | none => []
       | some b => [yesNo b]) ∧
    (w.requestErr = none → w.parse = .ok ⟨m⟩ →
      (UpdateSubscriber mg s l proto w).value = m ∧
      (UpdateSubscriber mg s l proto w).err = none) := by
  rcases w with ⟨re, pr⟩
  rcases proto with ⟨pa, pn, psub, pvars⟩
  cases pvars with
  | none =>
      cases re <;> cases psub <;>
        refine ⟨?_, ?_, ?_, ?_, ?_⟩ <;>
        simp [UpdateSubscriber, sentPayload, fieldValues, List.filter_append,
          parseFromJSON] <;>
        first
          | (split_ifs <;> simp_all)
          | (rintro rfl; exact ⟨rfl, rfl⟩)
          | simp_all
  | some kvs =>
      have hvs : marshalVars (some kvs) = .ok vs := hm kvs rfl
      cases re <;> cases psub <;>
        refine ⟨?_, ?_, ?_, ?_, ?_⟩ <;>
        simp only [UpdateSubscriber, hvs] <;>
        simp [sentPayload, fieldValues, List.filter_append, parseFromJSON] <;>
        first
          | (split_ifs <;> simp_all)
          | (rintro rfl; exact ⟨rfl, rfl⟩)
          | simp_all

/-- Witness for C7 at a concrete prototype, serialized vars, and response. -/
theorem updateSubscriber_partial_update_witness :
    fieldValues (sentPayload (UpdateSubscriber ⟨"key"⟩ "joe@x.com" "list@x.com"
        ⟨"", "Joe", none, some [("k", GoValue.json (Json.str "v"))]⟩
        ⟨none, .ok ⟨⟨"joe@x.com", "Joe", some true, none⟩⟩⟩)) "address" = [] ∧
    fieldValues (sentPayload (UpdateSubscriber ⟨"key"⟩ "joe@x.com" "list@x.com"
        ⟨"", "Joe", none, some [("k", GoValue.json (Json.str "v"))]⟩
        ⟨none, .ok ⟨⟨"joe@x.com", "Joe", some true, none⟩⟩⟩)) "name" = ["Joe"] ∧
    fieldValues (sentPayload (UpdateSubscriber ⟨"key"⟩ "joe@x.com" "list@x.com"
        ⟨"", "Joe", none, some [("k", GoValue.json (Json.str "v"))]⟩
        ⟨none, .ok ⟨⟨"joe@x.com", "Joe", some true, none⟩⟩⟩)) "vars" = ["\x7b\"k\":\"v\"\x7d"] ∧
    fieldValues (sentPayload (UpdateSubscriber ⟨"key"⟩ "joe@x.com" "list@x.com"
        ⟨"", "Joe", none, some [("k", GoValue.json (Json.str "v"))]⟩
        ⟨none, .ok ⟨⟨"joe@x.com", "Joe", some true, none⟩⟩⟩)) "subscribed" = [] ∧
    (UpdateSubscriber ⟨"key"⟩ "joe@x.com" "list@x.com"
        ⟨"", "Joe", none, some [("k", GoValue.json (Json.str "v"))]⟩
        ⟨none, .ok ⟨⟨"joe@x.com", "Joe", some true, none⟩⟩⟩).value =
      ⟨"joe@x.com", "Joe", some true, none⟩ ∧
    (UpdateSubscriber ⟨"key"⟩ "joe@x.com" "list@x.com"
        ⟨"", "Joe", none, some [("k", GoValue.json (Json.str "v"))]⟩
        ⟨none, .ok ⟨⟨"joe@x.com", "Joe", some true, none⟩⟩⟩).err = none := by
  have h := updateSubscriber_partial_update ⟨"key"⟩ "joe@x.com" "list@x.com"
    ⟨"", "Joe", none, some [("k", GoValue.json (Json.str "v"))]⟩
    ⟨none, .ok ⟨⟨"joe@x.com", "Joe", some true, none⟩⟩⟩ "\x7b\"k\":\"v\"\x7d"
    ⟨"joe@x.com", "Joe", some true, none⟩
    (by intro kvs hk; cases hk; rfl)
  obtain ⟨h1, h2, h3, h4, h5⟩ := h
  obtain ⟨h6, h7⟩ := h5 rfl rfl
  exact ⟨h1, h2, h3, h4, h6, h7⟩

/-! ## Round trip of the JSON codec: character and digit lemmas -/

theorem hexVal_hexDigit (d : Nat) (h : d < 16) : hexVal (hexDigit d) = some d := by
  interval_cases d <;> decide

theorem digitChar_isDigit (d : Nat) (h : d < 10) : (digitChar d).isDigit = true := by
  interval_cases d <;> decide

theorem digitChar_toNat (d : Nat) (h : d < 10) : (digitChar d).toNat = 48 + d := by
  interval_cases d <;> decide

theorem digit_head_ne (c : Char) (h : c.isDigit = true) :
    c ≠ 'n' ∧ c ≠ 't' ∧ c ≠ 'f' ∧ c ≠ '"' ∧ c ≠ '[' ∧ c ≠ lbrace ∧ c ≠ '-' ∧ c ≠ ']' := by
  refine ⟨?_, ?_, ?_, ?_, ?_, ?_, ?_, ?_⟩ <;>
    (rintro rfl; exact absurd h (by decide))

theorem natChars_all_digits (n : Nat) : ∀ c ∈ natChars n, c.isDigit = true := by
  intro c hc
  by_cases h0 : n = 0
  · subst h0
    simp [natChars] at hc
    subst hc
    decide
  · simp [natChars, h0] at hc
    obtain ⟨d, hd, rfl⟩ := hc
    exact digitChar_isDigit d (Nat.digits_lt_base (by norm_num) hd)

theorem natChars_head_digit (n : Nat) :
    ∃ c cs, natChars n = c :: cs ∧ c.isDigit = true := by
  by_cases h0 : n = 0
  · exact ⟨'0', [], by simp [natChars, h0], by decide⟩
  · rcases hd : (Nat.digits 10 n).reverse with _ | ⟨d, ds⟩
    · exact absurd (List.reverse_eq_nil_iff.mp hd) (Nat.digits_ne_nil_iff_ne_zero.mpr h0)
    · refine ⟨digitChar d, ds.map digitChar, by simp [natChars, h0, hd], ?_⟩
      have hdm : d ∈ Nat.digits 10 n := by
        have : d ∈ (Nat.digits 10 n).reverse := by simp [hd]
        simpa using this
      exact digitChar_isDigit d (Nat.digits_lt_base (by norm_num) hdm)

theorem parseDigitsAux_append (A : List Char) :
    ∀ (B : List Char) (acc : Nat), (∀ c ∈ A, c.isDigit = true) →
      parseDigitsAux (A ++ B) acc =
        parseDigitsAux B (A.foldl (fun a c => 10 * a + (c.toNat - 48)) acc) := by
  induction A with
  | nil => intro B acc _; rfl
  | cons c A' ih =>
      intro B acc hA
      have hc : c.isDigit = true := hA c (by simp)
      simp only [List.cons_append, parseDigitsAux, hc, if_true, List.foldl_cons]
      exact ih B _ (fun d hd => hA d (by simp [hd]))

theorem parseDigitsAux_stop (B : List Char) (acc : Nat)
    (hB : ∀ c, B.head? = some c → c.isDigit = false) :
    parseDigitsAux B acc = (acc, B) := by
  cases B with
  | nil => rfl
  | cons c r => simp [parseDigitsAux, hB c rfl]

theorem foldr_digitChars (l : List Nat) :
    ∀ acc : Nat, (∀ d ∈ l, d < 10) →
      List.foldr (fun x y => 10 * y + (x.toNat - 48)) acc (l.map digitChar) =
        acc * 10 ^ l.length + Nat.ofDigits 10 l := by
  induction l with
  | nil => intro acc _; simp
  | cons d ds ih =>
      intro acc h
      have hd : d < 10 := h d (by simp)
      simp only [List.map_cons, List.foldr_cons, ih acc (fun x hx => h x (by simp [hx])),
        Nat.ofDigits_cons, digitChar_toNat d hd, List.length_cons, pow_succ,
        Nat.add_sub_cancel_left]
      ring

theorem parseNatRun_natChars (n : Nat) (rest : List Char)
    (hrest : ∀ c, rest.head? = some c → c.isDigit = false) :
    parseNatRun (natChars n ++ rest) = some (n, rest) := by
  obtain ⟨c, cs, hnc, hcd⟩ := natChars_head_digit n
  have hall : ∀ x ∈ natChars n, x.isDigit = true := natChars_all_digits n
  have hval : (natChars n).foldl (fun a c => 10 * a + (c.toNat - 48)) 0 = n := by
    by_cases h0 : n = 0
    · subst h0; decide
    · have hlt : ∀ d ∈ Nat.digits 10 n, d < 10 :=
        fun d hd => Nat.digits_lt_base (by norm_num) hd
      rw [show natChars n = ((Nat.digits 10 n).map digitChar).reverse from by
        simp [natChars, h0, List.map_reverse]]
      rw [List.foldl_reverse]
      have := foldr_digitChars (Nat.digits 10 n) 0 hlt
      simpa [Nat.ofDigits_digits] using this
  rw [hnc, List.cons_append]
  simp only [parseNatRun, hcd, if_true]
  have happ : parseDigitsAux (c :: cs ++ rest) 0 =
      parseDigitsAux rest ((c :: cs).foldl (fun a c => 10 * a + (c.toNat - 48)) 0) := by
    have := parseDigitsAux_append (c :: cs) rest 0 (by rw [← hnc]; exact hall)
    simpa using this
  rw [show (c :: (cs ++ rest)) = (c :: cs) ++ rest from rfl, happ,
    parseDigitsAux_stop rest _ hrest, ← hnc, hval]

theorem parseStringBody_quote (X : List Char) : parseStringBody ('"' :: X) = some ([], X) := by
  rw [parseStringBody.eq_def]
  simp

theorem parseStringBody_raw (c : Char) (X cs' r : List Char) (hq : c ≠ '"') (hb : c ≠ '\\')
    (hX : parseStringBody X = some (cs', r)) :
    parseStringBody (c :: X) = some (c :: cs', r) := by
  rw [parseStringBody.eq_def]
  simp only [if_neg hq, if_neg hb, hX]

theorem parseStringBody_esc (e u : Char) (X cs' r : List Char)
    (he : e ≠ 'u') (hu : unescapeChar e = some u) (hX : parseStringBody X = some (cs', r)) :
    parseStringBody ('\\' :: e :: X) = some (u :: cs', r) := by
  rw [parseStringBody.eq_def]
  simp only [if_neg (by decide : ¬('\\' : Char) = '"'), if_pos rfl]
  split
  case isTrue => split <;> simp_all
  case isFalse h => exact absurd trivial h

theorem parseStringBody_hex (n : Nat) (X cs' r : List Char) (hn : n < 65536)
    (hX : parseStringBody X = some (cs', r)) :
    parseStringBody ('\\' :: 'u' :: toHex4 n ++ X) = some (Char.ofNat n :: cs', r) := by
  rw [parseStringBody.eq_def]
  simp only [toHex4, List.cons_append, List.nil_append,
    if_neg (by decide : ¬('\\' : Char) = '"'), if_pos rfl,
    hexVal_hexDigit _ (Nat.mod_lt _ (by norm_num)), hX]
  rw [show (((n / 4096 % 16) * 16 + n / 256 % 16) * 16 + n / 16 % 16) * 16 + n % 16 = n from
    by omega]
  split
  case isTrue => rfl
  case isFalse h => exact absurd trivial h

theorem parseStringBody_escape (cs : List Char) :
    ∀ rest : List Char, parseStringBody (escapeList cs ++ '"' :: rest) = some (cs, rest) := by
  induction cs with
  | nil => intro rest; simpa [escapeList] using parseStringBody_quote rest
  | cons c cs ih =>
      intro rest
      simp only [escapeList, List.append_assoc]
      by_cases h1 : c = '"'
      · subst h1
        rw [show escapeChar '"' = ['\\', '"'] from rfl]
        simpa using parseStringBody_esc '"' '"' _ _ _ (by decide) rfl (ih rest)
      · by_cases h2 : c = '\\'
        · subst h2
          rw [show escapeChar '\\' = ['\\', '\\'] from rfl]
          simpa using parseStringBody_esc '\\' '\\' _ _ _ (by decide) rfl (ih rest)
        · by_cases h3 : c = '\n'
          · subst h3
            rw [show escapeChar '\n' = ['\\', 'n'] from rfl]
            simpa using parseStringBody_esc 'n' '\n' _ _ _ (by decide) rfl (ih rest)
          · by_cases h4 : c = '\r'
            · subst h4
              rw [show escapeChar '\r' = ['\\', 'r'] from rfl]
              simpa using parseStringBody_esc 'r' '\r' _ _ _ (by decide) rfl (ih rest)
            · by_cases h5 : c = '\t'
              · subst h5
                rw [show escapeChar '\t' = ['\\', 't'] from rfl]
                simpa using parseStringBody_esc 't' '\t' _ _ _ (by decide) rfl (ih rest)
              · by_cases h6 : c.toNat < 32 ∨ c = '<' ∨ c = '>' ∨ c = '&' ∨
                    c.toNat = 8232 ∨ c.toNat = 8233
                · rw [show escapeChar c = '\\' :: 'u' :: toHex4 c.toNat from by
                    simp [escapeChar, h1, h2, h3, h4, h5, h6]]
                  have hb : c.toNat < 65536 := by
                    rcases h6 with h | h | h | h | h | h
                    · omega
                    · subst h; decide
                    · subst h; decide
                    · subst h; decide
                    · omega
                    · omega
                  have hstep := parseStringBody_hex c.toNat (escapeList cs ++ '"' :: rest)
                    _ _ hb (ih rest)
                  rw [Char.ofNat_toNat] at hstep
                  simpa using hstep
                · rw [show escapeChar c = [c] from by
                    simp [escapeChar, h1, h2, h3, h4, h5, h6]]
                  simpa using parseStringBody_raw c _ _ _ h1 h2 (ih rest)

theorem natChars_ne_nil (n : Nat) : natChars n ≠ [] := by
  obtain ⟨c, cs, h, _⟩ := natChars_head_digit n
  simp [h]

theorem sizeJ_pos (j : Json) : 1 ≤ sizeJ j := by
  cases j <;> simp [sizeJ]

mutual

theorem sizeJ_le_render : ∀ j : Json, sizeJ j ≤ (renderChars j).length
  | .null => by simp [sizeJ, renderChars]
  | .bool b => by cases b <;> simp [sizeJ, renderChars]
  | .num i => by
      have h1 : 1 ≤ (intChars i).length := by
        cases i with
        | ofNat n =>
            have := natChars_ne_nil n
            simp only [intChars]
            exact List.length_pos.mpr this
        | negSucc n => simp [intChars]
      simpa [sizeJ, renderChars] using h1
  | .str s => by simp [sizeJ, renderChars]
  | .arr xs => by
      have h := sizeElems_le_render xs
      simp only [sizeJ, renderChars, List.length_append, List.length_cons]
      omega
  | .obj fs => by
      have h := sizeFields_le_render fs
      simp only [sizeJ, renderChars, List.length_append, List.length_cons]
      omega

theorem sizeElems_le_render : ∀ xs : List Json, sizeElems xs ≤ 1 + (renderElems xs).length
  | [] => by simp [sizeElems, renderElems]
  | [x] => by
      have h := sizeJ_le_render x
      simp only [sizeElems, renderElems, List.length_cons]
      omega
  | x :: y :: xs => by
      have h1 := sizeJ_le_render x
      have h2 := sizeElems_le_render (y :: xs)
      simp only [sizeElems] at h2 ⊢
      simp only [renderElems, List.length_append, List.length_cons] at h2 ⊢
      omega

theorem sizeFields_le_render : ∀ fs : List (String × Json), sizeFields fs ≤ 1 + (renderFields fs).length
  | [] => by simp [sizeFields, renderFields]
  | [(k, v)] => by
      have h := sizeJ_le_render v
      simp only [sizeFields, renderFields, List.length_append, List.length_cons]
      omega
  | (k, v) :: kv2 :: fs => by
      have h1 := sizeJ_le_render v
      have h2 := sizeFields_le_render (kv2 :: fs)
      simp only [sizeFields] at h2 ⊢
      simp only [renderFields, List.length_append, List.length_cons] at h2 ⊢
      omega

end

theorem renderChars_head_ne_rbrack (j : Json) :
    ∃ c cs, renderChars j = c :: cs ∧ c ≠ ']' := by
  cases j with
  | null => exact ⟨'n', ['u', 'l', 'l'], by simp [renderChars], by decide⟩
  | bool b =>
      cases b
      · exact ⟨'f', ['a', 'l', 's', 'e'], by simp [renderChars], by decide⟩
      · exact ⟨'t', ['r', 'u', 'e'], by simp [renderChars], by decide⟩
  | str s => exact ⟨'"', escapeList s.data ++ ['"'], by simp [renderChars], by decide⟩
  | arr xs => exact ⟨'[', renderElems xs ++ [']'], by simp [renderChars], by decide⟩
  | obj fs => exact ⟨lbrace, renderFields fs ++ [rbrace], by simp [renderChars], by decide⟩
  | num i =>
      cases i with
      | ofNat n =>
          obtain ⟨c, cs, h, hd⟩ := natChars_head_digit n
          exact ⟨c, cs, by simp [renderChars, intChars, h],
            (digit_head_ne c hd).2.2.2.2.2.2.2⟩
      | negSucc n => exact ⟨'-', natChars (n + 1), by simp [renderChars, intChars], by decide⟩

theorem renderElems_cons_head (x : Json) (xs : List Json) :
    ∃ c cs, renderElems (x :: xs) = c :: cs ∧ c ≠ ']' := by
  obtain ⟨c, cs0, hx, hc⟩ := renderChars_head_ne_rbrack x
  cases xs with
  | nil => exact ⟨c, cs0, by simp [renderElems, hx], hc⟩
  | cons y ys =>
      exact ⟨c, cs0 ++ ',' :: renderElems (y :: ys), by simp [renderElems, hx], hc⟩

theorem renderElems_cons_eq (x : Json) (xs : List Json) :
    renderElems (x :: xs) = renderChars x ++
      (match xs with
       | [] => []
       | y :: ys => ',' :: renderElems (y :: ys)) := by
  cases xs <;> simp [renderElems]

theorem renderFields_cons_eq (kv : String × Json) (fs : List (String × Json)) :
    renderFields (kv :: fs) = '"' :: (escapeList kv.1.data ++ '"' :: ':' ::
      (renderChars kv.2 ++
        (match fs with
         | [] => []
         | kv2 :: fs' => ',' :: renderFields (kv2 :: fs')))) := by
  cases fs <;> simp [renderFields]

theorem parse_render_all (fuel : Nat) :
    (∀ j rest, sizeJ j ≤ fuel → (∀ c, rest.head? = some c → c.isDigit = false) →
       parseVal fuel (renderChars j ++ rest) = some (j, rest)) ∧
    (∀ xs rest, xs ≠ [] → sizeElems xs ≤ fuel →
       parseElems fuel (renderElems xs ++ ']' :: rest) = some (xs, rest)) ∧
    (∀ fs rest, fs ≠ [] → sizeFields fs ≤ fuel →
       parseFields fuel (renderFields fs ++ rbrace :: rest) = some (fs, rest)) := by
  induction fuel with
  | zero =>
      refine ⟨?_, ?_, ?_⟩
      · intro j rest hsz _
        exact absurd hsz (by have := sizeJ_pos j; omega)
      · intro xs rest hne hsz
        cases xs with
        | nil => exact absurd rfl hne
        | cons x xs' => simp [sizeElems] at hsz
      · intro fs rest hne hsz
        cases fs with
        | nil => exact absurd rfl hne
        | cons f fs' => simp [sizeFields] at hsz
  | succ fuel ih =>
      obtain ⟨ihV, ihE, ihF⟩ := ih
      refine ⟨?_, ?_, ?_⟩
      · intro j rest hsz hrest
        cases j with
        | null =>
            rw [show renderChars Json.null = ['n', 'u', 'l', 'l'] from by simp [renderChars]]
            simp [parseVal]
        | bool b =>
            cases b
            · rw [show renderChars (Json.bool false) = ['f', 'a', 'l', 's', 'e'] from by
                simp [renderChars]]
              simp [parseVal]
            · rw [show renderChars (Json.bool true) = ['t', 'r', 'u', 'e'] from by
                simp [renderChars]]
              simp [parseVal]
        | num i =>
            cases i with
            | ofNat n =>
                obtain ⟨c, cs, hnc, hcd⟩ := natChars_head_digit n
                obtain ⟨d1, d2, d3, d4, d5, d6, d7, d8⟩ := digit_head_ne c hcd
                have hpn := parseNatRun_natChars n rest hrest
                rw [show renderChars (Json.num (Int.ofNat n)) = natChars n from by
                  simp [renderChars, intChars]]
                rw [hnc] at hpn ⊢
                simp only [List.cons_append] at hpn
                simp [parseVal, d1, d2, d3, d4, d5, d6, d7, hcd, hpn]
            | negSucc n =>
                have hpn := parseNatRun_natChars (n + 1) rest hrest
                rw [show renderChars (Json.num (Int.negSucc n)) = '-' :: natChars (n + 1) from by
                  simp [renderChars, intChars]]
                rw [List.cons_append]
                simp [parseVal, lbrace, hpn, Int.negSucc_eq]
        | str s =>
            have hps := parseStringBody_escape s.data rest
            rw [show renderChars (Json.str s) = '"' :: (escapeList s.data ++ ['"']) from by
              simp [renderChars]]
            rw [List.cons_append, List.append_assoc]
            simp only [List.singleton_append]
            simp [parseVal, hps]
        | arr xs =>
            cases xs with
            | nil =>
                rw [show renderChars (Json.arr []) = ['[', ']'] from by
                  simp [renderChars, renderElems]]
                simp [parseVal]
            | cons x xs' =>
                have hsz' : sizeElems (x :: xs') ≤ fuel := by
                  simp only [sizeJ] at hsz
                  omega
                have hE := ihE (x :: xs') rest (by simp) hsz'
                obtain ⟨c0, cs0, hel, hc0⟩ := renderElems_cons_head x xs'
                rw [show renderChars (Json.arr (x :: xs')) =
                  '[' :: (renderElems (x :: xs') ++ [']']) from by simp [renderChars]]
                rw [List.cons_append, List.append_assoc]
                simp only [List.singleton_append]
                rw [hel] at hE ⊢
                simp only [List.cons_append] at hE
                rw [List.cons_append]
                simp [parseVal, hc0, hE]
        | obj fs =>
            cases fs with
            | nil =>
                rw [show renderChars (Json.obj []) = [lbrace, rbrace] from by
                  simp [renderChars, renderFields]]
                simp [parseVal, lbrace, rbrace]
            | cons f fs' =>
                have hsz' : sizeFields (f :: fs') ≤ fuel := by
                  simp only [sizeJ] at hsz
                  omega
                have hF := ihF (f :: fs') rest (by simp) hsz'
                rw [show renderChars (Json.obj (f :: fs')) =
                  lbrace :: (renderFields (f :: fs') ++ [rbrace]) from by simp [renderChars]]
                rw [List.cons_append, List.append_assoc]
                simp only [List.singleton_append]
                rw [renderFields_cons_eq] at hF ⊢
                simp only [rbrace, List.cons_append, List.append_assoc] at hF
                rw [List.cons_append]
                simp [parseVal, lbrace, rbrace, hF]
      · intro xs rest hne hsz
        cases xs with
        | nil => exact absurd rfl hne
        | cons x xs' =>
            have hszx : sizeJ x ≤ fuel := by
              simp only [sizeElems] at hsz
              omega
            cases xs' with
            | nil =>
                have hV := ihV x (']' :: rest) hszx
                  (by intro c hc; simp at hc; subst hc; decide)
                rw [show renderElems [x] = renderChars x from by simp [renderElems]]
                simp [parseElems, hV]
            | cons y ys =>
                have hV := ihV x (',' :: (renderElems (y :: ys) ++ ']' :: rest)) hszx
                  (by intro c hc; simp at hc; subst hc; decide)
                have hsz' : sizeElems (y :: ys) ≤ fuel := by
                  simp only [sizeElems] at hsz ⊢
                  omega
                have hE := ihE (y :: ys) rest (by simp) hsz'
                rw [show renderElems (x :: y :: ys) =
                  renderChars x ++ ',' :: renderElems (y :: ys) from by simp [renderElems]]
                rw [List.append_assoc, List.cons_append]
                simp [parseElems, hV, hE]
      · intro fs rest hne hsz
        cases fs with
        | nil => exact absurd rfl hne
        | cons kv fs' =>
            have hszv : sizeJ kv.2 ≤ fuel := by
              simp only [sizeFields] at hsz
              omega
            cases fs' with
            | nil =>
                have hV := ihV kv.2 (rbrace :: rest) hszv
                  (by intro c hc; simp at hc; subst hc; decide)
                have hk := parseStringBody_escape kv.1.data
                  (':' :: (renderChars kv.2 ++ rbrace :: rest))
                rw [renderFields_cons_eq]
                rw [List.cons_append, List.append_assoc]
                simp only [List.cons_append]
                simp [parseFields, hk, hV]
            | cons kv2 fs'' =>
                have hsz' : sizeFields (kv2 :: fs'') ≤ fuel := by
                  simp only [sizeFields] at hsz ⊢
                  omega
                have hF := ihF (kv2 :: fs'') rest (by simp) hsz'
                have hV := ihV kv.2
                  (',' :: (renderFields (kv2 :: fs'') ++ rbrace :: rest)) hszv
                  (by intro c hc; simp at hc; subst hc; decide)
                have hk := parseStringBody_escape kv.1.data
                  (':' :: (renderChars kv.2 ++ ',' :: (renderFields (kv2 :: fs'') ++ rbrace :: rest)))
                rw [renderFields_cons_eq]
                rw [List.cons_append, List.append_assoc]
                simp only [List.cons_append, List.append_assoc]
                simp [parseFields, hk, hV, hF,
                  show (',' : Char) ≠ rbrace from by decide]

theorem sortByKey_sorted_id (kvs : List (String × GoValue))
    (h : List.Chain' (fun a b => a.1 < b.1) kvs) : sortByKey kvs = kvs := by
  induction kvs with
  | nil => rfl
  | cons x xs ih =>
      have hx : sortByKey xs = xs := ih h.tail
      simp only [sortByKey, hx]
      cases xs with
      | nil => rfl
      | cons y ys =>
          have hxy : x.1 < y.1 := (List.chain'_cons.mp h).1
          simp [insertByKey, le_of_lt hxy]

theorem marshalFields_json (kvs : List (String × Json)) :
    marshalFields (kvs.map (fun kv => (kv.1, GoValue.json kv.2))) = .ok kvs := by
  induction kvs with
  | nil => rfl
  | cons kv kvs ih =>
      simp [marshalFields, marshalGoValue, ih, bind, Except.bind]

/-- C8: serializing a `vars` map whose values are all JSON-representable
(as `CreateSubscriber`/`UpdateSubscriber` do via `json.Marshal`) and
deserializing the resulting string yields the original map.  The map is
represented canonically as a key-sorted association list, matching the
sorted key order `json.Marshal` emits. -/
theorem vars_marshal_roundtrip (kvs : List (String × Json))
    (hsort : List.Chain' (fun a b => a.1 < b.1) kvs) :
    marshalVars (some (kvs.map (fun kv => (kv.1, GoValue.json kv.2)))) =
      .ok (String.mk (renderChars (Json.obj kvs))) ∧
    unmarshalVars (String.mk (renderChars (Json.obj kvs))) =
      some (some (kvs.map (fun kv => (kv.1, GoValue.json kv.2)))) := by
  have hsorted : sortByKey (kvs.map (fun kv => (kv.1, GoValue.json kv.2))) =
      kvs.map (fun kv => (kv.1, GoValue.json kv.2)) := by
    apply sortByKey_sorted_id
    rw [List.chain'_map]
    exact hsort
  constructor
  · simp [marshalVars, hsorted, marshalFields_json kvs, bind, Except.bind]
  · have hV := (parse_render_all ((renderChars (Json.obj kvs)).length + 1)).1
      (Json.obj kvs) []
      (by have := sizeJ_le_render (Json.obj kvs); omega)
      (by intro c hc; simp at hc)
    simp only [List.append_nil] at hV
    simp [unmarshalVars, String.length, hV]

/-- Witness for C8 at the concrete map `[k ↦ "v"]`. -/
theorem vars_marshal_roundtrip_witness :
    marshalVars (some [("k", GoValue.json (Json.str "v"))]) = .ok "\x7b\"k\":\"v\"\x7d" ∧
    unmarshalVars "\x7b\"k\":\"v\"\x7d" = some (some [("k", GoValue.json (Json.str "v"))]) := by
  have h := vars_marshal_roundtrip [("k", Json.str "v")] (by simp)
  have hs : String.mk (renderChars (Json.obj [("k", Json.str "v")])) = "\x7b\"k\":\"v\"\x7d" := rfl
  rw [hs] at h
  simpa using h

end Mailgun
